import Mathlib

/-!
Verification of the inline consensus reconciler
(`build_inline_payload` in `tests/inline_consensus_test.py`).

The reconciler is dynamically typed Python operating on JSON-like values
(dict records with optional keys), raising exceptions on ill-typed data and
mutating finding records in place.  We embed it shallowly:

* `PyVal` models the Python/JSON values the function can receive
  (`None`, booleans, integers, strings, lists, string-keyed dicts);
  floats are not modelled.
* Exceptions are modelled with `Except PErr`; every operation that can raise
  in Python returns in that monad.
* Python dicts are mutable objects aliased by reference.  Mutation matters
  here (`f["provider"] = ...`, `entry["finding"]["suggestion"] = ...`), so
  finding records live in an explicit `Store` (a list of `PyVal` indexed by
  `Nat` references) threaded through the computation; `provider_findings`
  is a list of references into that store.
* `struct_line` reaches the code only through `json.loads`: either the string
  is empty, or parsing raises, or it yields a value.  `StructLine` records
  exactly that outcome, so the JSON grammar itself is not re-implemented.
-/

inductive PyVal where
  | none : PyVal
  | bool : Bool → PyVal
  | int : Int → PyVal
  | str : String → PyVal
  | list : List PyVal → PyVal
  | dict : List (String × PyVal) → PyVal

/-- Python exception classes that the reconciler can raise. -/
inductive PErr where
  | attributeError : PErr
  | typeError : PErr
deriving DecidableEq

/-- Python truthiness: `None`, `False`, `0`, `""`, `[]`, `{}` are falsy. -/
def truthy : PyVal → Bool
  | .none => false
  | .bool b => b
  | .int n => n ≠ 0
  | .str s => s ≠ ""
  | .list l => !l.isEmpty
  | .dict d => !d.isEmpty

/-- Python `a or b` on already-evaluated operands. -/
def pyOr (a b : PyVal) : PyVal := if truthy a then a else b

/-- Python `==` restricted to the hashable values this program compares
(`bool` and `int` compare numerically, as in Python; containers are only
ever compared against strings here, where Python `==` is `False`). -/
def pyEq : PyVal → PyVal → Bool
  | .none, .none => true
  | .bool a, .bool b => a = b
  | .bool a, .int b => (if a then (1 : Int) else 0) = b
  | .int a, .bool b => a = (if b then (1 : Int) else 0)
  | .int a, .int b => a = b
  | .str a, .str b => a = b
  | _, _ => false

/-- Lookup in the association list backing a Python dict. -/
def assocGet : List (String × PyVal) → String → Option PyVal
  | [], _ => Option.none
  | (k2, v) :: rest, k => if k2 = k then some v else assocGet rest k

/-- Python `d[k] = v`: replace in place, or append a new key at the end. -/
def assocSet : List (String × PyVal) → String → PyVal → List (String × PyVal)
  | [], k, v => [(k, v)]
  | (k2, v2) :: rest, k, v =>
      if k2 = k then (k, v) :: rest else (k2, v2) :: assocSet rest k v

/-- Python `f.get(k, d)`: `AttributeError` when `f` is not a dict. -/
def dictGet (f : PyVal) (k : String) (d : PyVal) : Except PErr PyVal :=
  match f with
  | .dict kvs => .ok ((assocGet kvs k).getD d)
  | _ => .error .attributeError

/-- Python `f[k] = v` on a dict; `TypeError` otherwise. -/
def dictSet (f : PyVal) (k : String) (v : PyVal) : Except PErr PyVal :=
  match f with
  | .dict kvs => .ok (.dict (assocSet kvs k v))
  | _ => .error .typeError

/-- Python `str.strip()` with no argument: drop leading and trailing
whitespace.  Implemented by structural recursion over the character list
(unlike `String.trim`, this reduces definitionally); Python additionally
strips `\x0b`/`\x0c`, which never occur in this program's data. -/
def pyStrip (s : String) : String :=
  ⟨((s.data.dropWhile Char.isWhitespace).reverse.dropWhile
      Char.isWhitespace).reverse⟩

/-- Python `str.lower()` (ASCII range, as in `String.toLower`). -/
def pyLower (s : String) : String := ⟨s.data.map Char.toLower⟩

/-- Python `int(s)` on a string: optional surrounding whitespace, optional
sign, a non-empty digit run (digit-group underscores are not modelled). -/
def parseIntStr (s : String) : Option Int :=
  match (pyStrip s).data with
  | [] => Option.none
  | c :: rest =>
      let digits := if c = '-' ∨ c = '+' then rest else c :: rest
      let sign : Int := if c = '-' then -1 else 1
      if digits ≠ [] ∧ digits.all Char.isDigit then
        some (sign * ((digits.foldl (fun acc d => acc * 10 + (d.toNat - 48)) 0 : Nat) : Int))
      else Option.none

/-- Python `int(v)`: bools coerce to 0/1, strings are parsed
(`ValueError` on failure), other values raise `TypeError`.
Both exception classes are only ever caught here, so `typeError` stands
for either. -/
def pyInt : PyVal → Except PErr Int
  | .bool b => .ok (if b then 1 else 0)
  | .int n => .ok n
  | .str s =>
      match parseIntStr s with
      | some n => .ok n
      | Option.none => .error .typeError
  | _ => .error .typeError

/-- Python `(v or "").strip()`: requires the selected value to be a string. -/
def stripOr (v : PyVal) : Except PErr String :=
  match pyOr v (.str "") with
  | .str s => .ok (pyStrip s)
  | _ => .error .attributeError

/-- Python `(v or "").lower()`. -/
def lowerOr (v : PyVal) : Except PErr String :=
  match pyOr v (.str "") with
  | .str s => .ok (pyLower s)
  | _ => .error .attributeError

/-- Python `v or ""` followed by uses that require a string (`.strip()`,
`"\n".join`). -/
def asStrOr (v : PyVal) : Except PErr String :=
  match pyOr v (.str "") with
  | .str s => .ok s
  | _ => .error .attributeError

/-- Python `str(v)` as used in f-string interpolation.  Exact on the scalar
values that can actually reach a format position in this program (every
truthy title, message or severity stored in a consensus entry was forced to
be a string earlier); containers are rendered schematically. -/
def pyToStr : PyVal → String
  | .str s => s
  | .int n => toString n
  | .bool b => if b then "True" else "False"
  | .none => "None"
  | .list _ => "<list>"
  | .dict _ => "<dict>"

/-- Python `for f in v`: lists yield elements, strings yield one-character
strings, dicts yield their keys, anything else raises `TypeError`. -/
def pyIter : PyVal → Except PErr (List PyVal)
  | .list l => .ok l
  | .str s => .ok (s.data.map (fun c => .str ⟨[c]⟩))
  | .dict kvs => .ok (kvs.map (fun kv => .str kv.1))
  | _ => .error .typeError

/-- Python `sep.join(xs)`: every element must be a string
(`TypeError` on the first non-string, in order). -/
def pyJoin (sep : String) : List PyVal → Except PErr String
  | [] => .ok ""
  | v :: rest =>
      match v with
      | .str s =>
          match rest with
          | [] => .ok s
          | _ :: _ =>
              match pyJoin sep rest with
              | .ok t => .ok (s ++ sep ++ t)
              | .error e => .error e
      | _ => .error .typeError

/-- Python list slice `l[:m]`, including the negative-bound case. -/
def pyTake {α : Type} (l : List α) (m : Int) : List α :=
  if 0 ≤ m then l.take m.toNat else l.take (l.length - (-m).toNat)

abbrev Store := List PyVal

/-- Dereference a record; out-of-range references read as `None`. -/
def readRef (st : Store) (r : Nat) : PyVal := st.getD r .none

/-- Outcome of `json.loads(struct_line)` as observed by the reconciler:
the string is empty (falsy, parsing skipped), parsing raised, or parsing
produced a value. -/
inductive StructLine where
  | empty : StructLine
  | malformed : StructLine
  | parsed : PyVal → StructLine

/-- Severity ranking table `{"critical": 3, "major": 2, "minor": 1}` with
`dict.get` semantics. -/
def severity_order (t : String) : Option Nat :=
  if t = "critical" then some 3
  else if t = "major" then some 2
  else if t = "minor" then some 1
  else Option.none

/-- `severity_order.get(severity, 0)`. -/
def rank0 (s : String) : Nat := (severity_order s).getD 0

/-- `severity_order.get(min_sev.lower(), 1)`. -/
def min_rank_of (min_sev : String) : Nat := (severity_order (pyLower min_sev)).getD 1

/-- The fixed placeholder substituted for a blank suggestion. -/
def placeholder_text : String :=
  "No specific suggestion provided; please adjust accordingly."

/-- `load_struct_findings` (lines 14-21): an empty `struct_line` or any
parse failure yields `[]`; `data.get("findings") or []` raises
`AttributeError` on a non-dict parse result, which the `except` swallows
into `[]`; a falsy `findings` value also yields `[]`. -/
def load_struct_findings : StructLine → PyVal
  | .empty => .list []
  | .malformed => .list []
  | .parsed v =>
      match v with
      | .dict kvs => pyOr ((assocGet kvs "findings").getD .none) (.list [])
      | _ => .list []

/-- The tagging loop body (lines 33-34):
`f["provider"] = f.get("provider") or "synthesis"`. -/
def tagProvider (st : Store) (r : Nat) : Except PErr Store :=
  match dictGet (readRef st r) "provider" .none with
  | .error e => .error e
  | .ok p =>
      match dictSet (readRef st r) "provider" (pyOr p (.str "synthesis")) with
      | .error e => .error e
      | .ok f2 => .ok (st.set r f2)

/-- `key_for` (lines 23-30): `(file, line, normalized_message)` for a
finding; raises `AttributeError` when the record is not a dict or a truthy
`file`/`title`/`message` value is not a string; a `line` that `int()`
cannot convert becomes 0. -/
def key_for (f : PyVal) : Except PErr (String × Int × String) :=
  match dictGet f "file" .none with
  | .error e => .error e
  | .ok fileV =>
      match stripOr fileV with
      | .error e => .error e
      | .ok file =>
          match dictGet f "line" (.int 0) with
          | .error e => .error e
          | .ok lineV =>
              let line : Int :=
                match pyInt lineV with
                | .ok n => n
                | .error _ => 0
              match dictGet f "title" .none with
              | .error e => .error e
              | .ok titleV =>
                  match dictGet f "message" .none with
                  | .error e => .error e
                  | .ok msgV =>
                      match pyOr titleV (pyOr msgV (.str "")) with
                      | .str s => .ok (file, line, pyLower (pyStrip s))
                      | _ => .error .attributeError

/-- Per-key aggregation state (the `setdefault` dict of line 51). -/
structure Entry where
  providers : List PyVal
  finding : Nat
  max_sev : String

abbrev Key := String × Int × String

abbrev ByKey := List (Key × Entry)

def findEntry : ByKey → Key → Option Entry
  | [], _ => Option.none
  | (k2, e) :: rest, k => if k2 = k then some e else findEntry rest k

/-- `by_key.setdefault(key, entry0)`: returns the (possibly unchanged)
dict together with the entry bound to the key. -/
def setdefaultEntry (bk : ByKey) (k : Key) (e0 : Entry) : ByKey × Entry :=
  match findEntry bk k with
  | some e => (bk, e)
  | Option.none => (bk ++ [(k, e0)], e0)

/-- Replace the value stored at a key, keeping the dict order. -/
def updateEntry : ByKey → Key → Entry → ByKey
  | [], _, _ => []
  | (k2, e2) :: rest, k, e =>
      if k2 = k then (k, e) :: rest else (k2, e2) :: updateEntry rest k e

/-- `entry["providers"].add(f["provider"])`: Python set insertion;
unhashable values (lists, dicts) raise `TypeError`. -/
def addProvider (ps : List PyVal) (v : PyVal) : Except PErr (List PyVal) :=
  match v with
  | .list _ => .error .typeError
  | .dict _ => .error .typeError
  | _ => .ok (if ps.any (fun a => pyEq a v) then ps else ps ++ [v])

/-- Lines 52-55: replace the representative finding and max severity only
when this finding ranks strictly higher; the replacement writes the
normalized suggestion back into the finding record (an in-place mutation
of the record at reference `r`). -/
def consensus_update (st : Store) (r : Nat) (severity suggestion : String)
    (e : Entry) : Except PErr (Store × Entry) :=
  if rank0 severity > rank0 e.max_sev then
    match dictSet (readRef st r) "suggestion" (.str suggestion) with
    | .error err => .error err
    | .ok f2 => .ok (st.set r f2, { e with max_sev := severity, finding := r })
  else .ok (st, e)

/-- Loop body of lines 38-57 for one finding reference. -/
def process_finding (min_rank : Nat) (changed_files : List String)
    (acc : Store × ByKey) (r : Nat) : Except PErr (Store × ByKey) :=
  let st := acc.1
  let bk := acc.2
  let f := readRef st r
  match key_for f with
  | .error e => .error e
  | .ok (file, line, msg) =>
      if file = "" ∨ line ≤ 0 ∨ msg = "" then .ok (st, bk)
      else if changed_files ≠ [] ∧ file ∉ changed_files then .ok (st, bk)
      else
        match dictGet f "severity" .none with
        | .error e => .error e
        | .ok sevV =>
            match lowerOr sevV with
            | .error e => .error e
            | .ok severity =>
                if rank0 severity < min_rank then .ok (st, bk)
                else
                  match dictGet f "suggestion" .none with
                  | .error e => .error e
                  | .ok sugV =>
                      match asStrOr sugV with
                      | .error e => .error e
                      | .ok sug0 =>
                          let suggestion :=
                            if (pyStrip sug0) = "" then placeholder_text else sug0
                          let key : Key := (file, line, msg)
                          let p := setdefaultEntry bk key ⟨[], r, severity⟩
                          match consensus_update st r severity suggestion p.2 with
                          | .error err => .error err
                          | .ok (st2, e2) =>
                              match dictGet (readRef st2 r) "provider" .none with
                              | .error err => .error err
                              | .ok pV =>
                                  if truthy pV then
                                    match addProvider e2.providers pV with
                                    | .error err => .error err
                                    | .ok ps =>
                                        .ok (st2, updateEntry p.1 key
                                          { e2 with providers := ps })
                                  else .ok (st2, updateEntry p.1 key e2)

/-- Steps 1-4 of the reconciler (lines 14-57): parse the structured block,
allocate its findings as fresh records, tag them with a default provider,
and fold the consensus loop over provider findings followed by structured
findings. -/
def reconcile (st : Store) (provider_findings : List Nat) (sl : StructLine)
    (min_sev : String) (changed_files : List String) :
    Except PErr (Store × ByKey) :=
  match pyIter (load_struct_findings sl) with
  | .error e => .error e
  | .ok elems =>
      let structRefs := (List.range elems.length).map (fun i => i + st.length)
      match structRefs.foldlM tagProvider (st ++ elems) with
      | .error e => .error e
      | .ok st2 =>
          (provider_findings ++ structRefs).foldlM
            (process_finding (min_rank_of min_sev) changed_files) (st2, [])

/-- Output unit (lines 75-82). -/
structure InlineComment where
  path : String
  line : Int
  side : String
  body : String
deriving DecidableEq

/-- Rendering of one surviving entry (lines 60-82): `none` when the entry
is below the agreement floor, otherwise the inline comment.  The severity
label is `entry["max_sev"] or f.get("severity") or "issue"`; the headline
is the f-string `**{severity}**: {title or message or msg}`; the raw
message is added as a detail line when truthy and different from the
normalized message; the suggestion read back from the (possibly mutated)
record is placeholder-substituted again before the fenced block. -/
def render_entry (st : Store) (min_agree : Int) (kv : Key × Entry) :
    Except PErr (Option InlineComment) :=
  let e := kv.2
  if (e.providers.length : Int) < min_agree then .ok Option.none
  else
    let f := readRef st e.finding
    match dictGet f "severity" .none with
    | .error err => .error err
    | .ok sevV =>
        let sevOut : PyVal :=
          if e.max_sev ≠ "" then .str e.max_sev else pyOr sevV (.str "issue")
        match dictGet f "title" .none, dictGet f "message" .none with
        | .ok titleV, .ok msgV =>
            let msg := kv.1.2.2
            let headline :=
              ("**" ++ pyToStr sevOut ++ "**: ")
                ++ pyToStr (pyOr titleV (pyOr msgV (.str msg)))
            let detail := pyOr msgV (.str "")
            let lines1 : List PyVal :=
              if truthy detail ∧ ¬ pyEq detail (.str msg) then
                [.str headline, detail]
              else [.str headline]
            match dictGet f "suggestion" .none with
            | .error err => .error err
            | .ok sugV =>
                match asStrOr sugV with
                | .error err => .error err
                | .ok sug0 =>
                    let suggestion :=
                      if (pyStrip sug0) = "" then placeholder_text else sug0
                    match pyJoin "\n" (lines1 ++
                        [.str "```suggestion", .str suggestion, .str "```"]) with
                    | .error err => .error err
                    | .ok body =>
                        .ok (some ⟨kv.1.1, kv.1.2.1, "RIGHT", body⟩)
        | .error err, _ => .error err
        | _, .error err => .error err

/-- The comment-collecting loop of lines 59-82: render entries in
first-insertion key order, keeping the produced comments in that order. -/
def filterMapE {a b : Type} (g : a → Except PErr (Option b)) :
    List a → Except PErr (List b)
  | [] => .ok []
  | x :: xs =>
      match g x with
      | .error e => .error e
      | .ok ob =>
          match filterMapE g xs with
          | .error e => .error e
          | .ok bs =>
              match ob with
              | some y => .ok (y :: bs)
              | Option.none => .ok bs

/-- `build_inline_payload` (lines 8-84).  `providers` is accepted and
ignored, as in the source.  `max_comments` and `min_agree` are taken as
already-coerced integers (`int(...)` at lines 11-12); `min_agree` is
floored at 1.  Returns the comment list together with the final store,
making in-place record mutation observable. -/
def build_inline_payload (st : Store) (provider_findings : List Nat)
    (struct_line : StructLine) (max_comments : Int) (min_sev : String)
    (min_agree : Int) (providers : List PyVal) (changed_files : List String) :
    Except PErr (List InlineComment × Store) :=
  match reconcile st provider_findings struct_line min_sev changed_files with
  | .error e => .error e
  | .ok (st3, bk) =>
      match filterMapE (render_entry st3 (max 1 min_agree)) bk with
      | .error e => .error e
      | .ok comments => .ok (pyTake comments max_comments, st3)

/-- Projection used to state concrete evaluations without equating stores. -/
def outComments (r : Except PErr (List InlineComment × Store)) :
    Option (List InlineComment) :=
  match r with
  | .ok p => some p.1
  | .error _ => Option.none

/-- Projection reading one record of the final store of a run. -/
def outRecord (r : Except PErr (List InlineComment × Store)) (i : Nat) :
    Option PyVal :=
  match r with
  | .ok p => some (readRef p.2 i)
  | .error _ => Option.none

/-- A record value is either unchanged or differs from the base record only
by an in-place overwrite of its `suggestion` key. -/
def SugUpd (base cur : PyVal) : Prop :=
  cur = base ∨ ∃ kvs s, base = .dict kvs ∧
    cur = .dict (assocSet kvs "suggestion" (.str s))

/-- Per-entry invariant: the provider set holds pairwise distinct values
(set semantics) and the recorded max severity is at or above the floor. -/
def EntryInv (min_rank : Nat) (e : Entry) : Prop :=
  e.providers.Pairwise (fun a b => pyEq a b = false) ∧ min_rank ≤ rank0 e.max_sev

/-- Table invariant: keys are unique and every entry satisfies `EntryInv`. -/
def BKInv (min_rank : Nat) (bk : ByKey) : Prop :=
  (bk.map Prod.fst).Nodup ∧ ∀ kv ∈ bk, EntryInv min_rank kv.2

/-- A fully populated finding record, as the Python tests build them. -/
def mkFinding (fl : String) (ln : Int) (sev ti ms su pr : String) : PyVal :=
  .dict [("file", .str fl), ("line", .int ln), ("severity", .str sev),
         ("title", .str ti), ("message", .str ms), ("suggestion", .str su),
         ("provider", .str pr)]

/-- Record refuting C7: the title is whitespace-only (hence truthy) and the
message is non-empty after trimming. -/
def c7_record : PyVal :=
  .dict [("file", .str "a.py"), ("line", .int 1), ("severity", .str "major"),
         ("title", .str " "), ("message", .str "Bug"), ("provider", .str "p1")]

/-- Two providers reporting the same key (scenario A of the spec, without
the solo finding). -/
def exSt : Store := [mkFinding "a.py" 10 "major" "Bug A" "msg" "fix" "p1",
                     mkFinding "a.py" 10 "major" "Bug A" "msg" "fix2" "p2"]

/-- The single comment that run produces. -/
def exComment : InlineComment :=
  ⟨"a.py", 10, "RIGHT", "**major**: Bug A\nmsg\n```suggestion\nfix\n```"⟩

/-- Record with an unranked severity, for the `C10_severity_floor`
witness. -/
def c10_record : PyVal :=
  .dict [("file", .str "a.py"), ("line", .int 1), ("title", .str "T"),
         ("severity", .str "weird")]

/-- The C9 refutation pair: a lower-severity first report, then a
higher-severity report of the same key whose suggestion is blank. -/
def c9_f1 : PyVal := mkFinding "a.py" 10 "minor" "Bug" "m" "x" "p1"

def c9_f2 : PyVal := mkFinding "a.py" 10 "major" "Bug" "m" "" "p2"

/-- The `suggestion` field of a record. -/
def suggestionOf (v : PyVal) : Option PyVal :=
  match v with
  | .dict kvs => assocGet kvs "suggestion"
  | _ => Option.none

/-! ### General lemmas about the embedding's building blocks -/

theorem except_bind_ok {eps a b : Type} (e : Except eps a) (g : a → Except eps b)
    (c : b) (h : (e >>= g) = .ok c) : ∃ x, e = .ok x ∧ g x = .ok c := by
  cases e with
  | ok x => exact ⟨x, rfl, h⟩
  | error err => simp [Bind.bind, Except.bind] at h

theorem readRef_set (st : Store) (r i : Nat) (v : PyVal) :
    readRef (st.set r v) i = if r = i ∧ r < st.length then v else readRef st i := by
  by_cases hri : r = i
  · subst hri
    by_cases hr : r < st.length
    · simp [readRef, List.getD, List.getElem?_set_self, hr, Nat.lt_irrefl]
    · rw [List.set_eq_of_length_le (Nat.le_of_not_lt hr)]
      simp [hr]
  · simp [readRef, List.getD, List.getElem?_set_ne hri, hri]

theorem readRef_append_left (st tl : Store) (i : Nat) (h : i < st.length) :
    readRef (st ++ tl) i = readRef st i := by
  simp [readRef, List.getD, List.getElem?_append_left h]

theorem pyTake_eq_take {α : Type} (l : List α) (m : Int) :
    ∃ n, pyTake l m = l.take n := by
  unfold pyTake
  by_cases h : 0 ≤ m
  · exact ⟨m.toNat, by simp [h]⟩
  · exact ⟨l.length - (-m).toNat, by simp [h]⟩

theorem pyTake_length_le {α : Type} (l : List α) (m : Int) (h : 0 ≤ m) :
    ((pyTake l m).length : Int) ≤ m := by
  unfold pyTake
  rw [if_pos h]
  have h1 : (l.take m.toNat).length ≤ m.toNat := by
    simp [List.length_take]
  omega

theorem filterMapE_mem {a b : Type} (g : a → Except PErr (Option b))
    (l : List a) (bs : List b) (h : filterMapE g l = .ok bs) :
    ∀ y ∈ bs, ∃ x ∈ l, g x = .ok (some y) := by
  induction l generalizing bs with
  | nil =>
      simp [filterMapE] at h
      subst h
      intro y hy
      simp at hy
  | cons x xs ih =>
      intro y hy
      unfold filterMapE at h
      cases hg : g x with
      | error e => rw [hg] at h; cases h
      | ok ob =>
          rw [hg] at h
          cases hrest : filterMapE g xs with
          | error e => rw [hrest] at h; cases h
          | ok bs2 =>
              rw [hrest] at h
              cases ob with
              | some z =>
                  simp at h
                  subst h
                  rcases List.mem_cons.mp hy with hyz | hmem
                  · exact ⟨x, List.mem_cons_self x xs, by rw [hg, hyz]⟩
                  · obtain ⟨w, hw, hgw⟩ := ih bs2 hrest y hmem
                    exact ⟨w, List.mem_cons_of_mem x hw, hgw⟩
              | none =>
                  simp at h
                  subst h
                  obtain ⟨w, hw, hgw⟩ := ih bs2 hrest y hy
                  exact ⟨w, List.mem_cons_of_mem x hw, hgw⟩

theorem filterMapE_pairs {a b : Type} (g : a → Except PErr (Option b))
    (l : List a) (bs : List b) (h : filterMapE g l = .ok bs) :
    ∃ pairs : List (a × b), bs = pairs.map Prod.snd ∧
      List.Sublist (pairs.map Prod.fst) l ∧
      ∀ p ∈ pairs, g p.1 = .ok (some p.2) := by
  induction l generalizing bs with
  | nil =>
      simp [filterMapE] at h
      subst h
      exact ⟨[], by simp, by simp, by simp⟩
  | cons x xs ih =>
      unfold filterMapE at h
      cases hg : g x with
      | error e => rw [hg] at h; cases h
      | ok ob =>
          rw [hg] at h
          cases hrest : filterMapE g xs with
          | error e => rw [hrest] at h; cases h
          | ok bs2 =>
              rw [hrest] at h
              obtain ⟨pairs, hmap, hsub, hall⟩ := ih bs2 hrest
              cases ob with
              | some z =>
                  simp at h
                  subst h
                  refine ⟨(x, z) :: pairs, by simp [hmap], ?_, ?_⟩
                  · simpa using List.Sublist.cons₂ x hsub
                  · intro p hp
                    rcases List.mem_cons.mp hp with hpz | hmem
                    · subst hpz; simpa using hg
                    · exact hall p hmem
              | none =>
                  simp at h
                  subst h
                  exact ⟨pairs, hmap, List.Sublist.cons x hsub, hall⟩

/-! ### Lemmas about the by-key dict -/

theorem findEntry_eq_none_iff (bk : ByKey) (k : Key) :
    findEntry bk k = Option.none ↔ k ∉ bk.map Prod.fst := by
  induction bk with
  | nil => simp [findEntry]
  | cons kv rest ih =>
      obtain ⟨k2, e⟩ := kv
      by_cases hk : k2 = k
      · subst hk
        simp [findEntry]
      · simp [findEntry, hk, ih, Ne.symm hk]

theorem findEntry_mem (bk : ByKey) (k : Key) (e : Entry)
    (h : findEntry bk k = some e) : (k, e) ∈ bk := by
  induction bk with
  | nil => simp [findEntry] at h
  | cons kv rest ih =>
      obtain ⟨k2, e2⟩ := kv
      by_cases hk : k2 = k
      · subst hk
        simp [findEntry] at h
        simp [h]
      · simp [findEntry, hk] at h
        exact List.mem_cons_of_mem _ (ih h)

theorem updateEntry_map_fst (bk : ByKey) (k : Key) (e : Entry) :
    (updateEntry bk k e).map Prod.fst = bk.map Prod.fst := by
  induction bk with
  | nil => simp [updateEntry]
  | cons kv rest ih =>
      obtain ⟨k2, e2⟩ := kv
      by_cases hk : k2 = k
      · subst hk
        simp [updateEntry]
      · simp [updateEntry, hk, ih]

theorem updateEntry_mem (bk : ByKey) (k : Key) (e : Entry) (kv : Key × Entry)
    (h : kv ∈ updateEntry bk k e) : kv ∈ bk ∨ kv = (k, e) := by
  induction bk with
  | nil => simp [updateEntry] at h
  | cons kv2 rest ih =>
      obtain ⟨k2, e2⟩ := kv2
      by_cases hk : k2 = k
      · subst hk
        simp [updateEntry] at h
        rcases h with h | h
        · exact Or.inr h
        · exact Or.inl (List.mem_cons_of_mem _ h)
      · simp [updateEntry, hk] at h
        rcases h with h | h
        · exact Or.inl (by simp [h])
        · rcases ih h with h2 | h2
          · exact Or.inl (List.mem_cons_of_mem _ h2)
          · exact Or.inr h2

theorem addProvider_pairwise (ps : List PyVal) (v : PyVal) (ps' : List PyVal)
    (hp : ps.Pairwise (fun a b => pyEq a b = false))
    (h : addProvider ps v = .ok ps') :
    ps'.Pairwise (fun a b => pyEq a b = false) := by
  unfold addProvider at h
  cases v with
  | list l => cases h
  | dict d => cases h
  | none =>
      by_cases hmem : ps.any (fun a => pyEq a PyVal.none)
      · simp [hmem] at h; subst h; exact hp
      · simp [hmem] at h
        subst h
        rw [List.pairwise_append]
        refine ⟨hp, by simp, ?_⟩
        intro a ha b hb
        simp at hb
        subst hb
        have := (List.any_eq_true.not.mp (by simpa using hmem))
        push_neg at this
        have h2 := this a ha
        simpa using h2
  | bool x =>
      by_cases hmem : ps.any (fun a => pyEq a (PyVal.bool x))
      · simp [hmem] at h; subst h; exact hp
      · simp [hmem] at h
        subst h
        rw [List.pairwise_append]
        refine ⟨hp, by simp, ?_⟩
        intro a ha b hb
        simp at hb
        subst hb
        have := (List.any_eq_true.not.mp (by simpa using hmem))
        push_neg at this
        have h2 := this a ha
        simpa using h2
  | int x =>
      by_cases hmem : ps.any (fun a => pyEq a (PyVal.int x))
      · simp [hmem] at h; subst h; exact hp
      · simp [hmem] at h
        subst h
        rw [List.pairwise_append]
        refine ⟨hp, by simp, ?_⟩
        intro a ha b hb
        simp at hb
        subst hb
        have := (List.any_eq_true.not.mp (by simpa using hmem))
        push_neg at this
        have h2 := this a ha
        simpa using h2
  | str x =>
      by_cases hmem : ps.any (fun a => pyEq a (PyVal.str x))
      · simp [hmem] at h; subst h; exact hp
      · simp [hmem] at h
        subst h
        rw [List.pairwise_append]
        refine ⟨hp, by simp, ?_⟩
        intro a ha b hb
        simp at hb
        subst hb
        have := (List.any_eq_true.not.mp (by simpa using hmem))
        push_neg at this
        have h2 := this a ha
        simpa using h2

/-! ### How the store can evolve: only suggestion write-backs -/


theorem SugUpd.refl (v : PyVal) : SugUpd v v := Or.inl rfl

theorem assocSet_assocSet (kvs : List (String × PyVal)) (k : String)
    (v w : PyVal) : assocSet (assocSet kvs k v) k w = assocSet kvs k w := by
  induction kvs with
  | nil => simp [assocSet]
  | cons kv rest ih =>
      obtain ⟨k2, v2⟩ := kv
      by_cases hk : k2 = k
      · subst hk
        simp [assocSet]
      · simp [assocSet, hk, ih]

theorem SugUpd.trans {a b c : PyVal} (h1 : SugUpd a b) (h2 : SugUpd b c) :
    SugUpd a c := by
  rcases h2 with h2 | ⟨kvs2, s2, hb, hc⟩
  · subst h2; exact h1
  · rcases h1 with h1 | ⟨kvs1, s1, ha, hb2⟩
    · subst h1
      exact Or.inr ⟨kvs2, s2, hb, hc⟩
    · subst ha
      rw [hb2] at hb
      injection hb with hkv
      subst hkv
      rw [assocSet_assocSet] at hc
      exact Or.inr ⟨kvs1, s2, rfl, hc⟩

/-- The entry-update step never touches the provider set, never lowers the
max rank, and changes the store at most by a suggestion write-back. -/
theorem consensus_update_ok (st : Store) (r : Nat) (sev sug : String)
    (e : Entry) (st2 : Store) (e2 : Entry)
    (h : consensus_update st r sev sug e = .ok (st2, e2)) :
    e2.providers = e.providers ∧
    rank0 e.max_sev ≤ rank0 e2.max_sev ∧
    (e2.max_sev = e.max_sev ∨ e2.max_sev = sev) ∧
    (∀ i, SugUpd (readRef st i) (readRef st2 i)) := by
  unfold consensus_update at h
  by_cases hr : rank0 sev > rank0 e.max_sev
  · rw [if_pos hr] at h
    cases hset : dictSet (readRef st r) "suggestion" (.str sug) with
    | error err => rw [hset] at h; cases h
    | ok f2 =>
        rw [hset] at h
        injection h with h1
        injection h1 with hst he
        subst hst
        subst he
        unfold dictSet at hset
        cases hread : readRef st r with
        | dict kvs =>
            rw [hread] at hset
            injection hset with hf2
            subst hf2
            refine ⟨rfl, Nat.le_of_lt hr, Or.inr rfl, ?_⟩
            intro i
            rw [readRef_set]
            by_cases hcase : r = i ∧ r < st.length
            · rw [if_pos hcase]
              obtain ⟨hri, _⟩ := hcase
              subst hri
              exact Or.inr ⟨kvs, sug, hread, rfl⟩
            · rw [if_neg hcase]
              exact SugUpd.refl _
        | none => rw [hread] at hset; cases hset
        | bool b => rw [hread] at hset; cases hset
        | int n => rw [hread] at hset; cases hset
        | str s => rw [hread] at hset; cases hset
        | list l => rw [hread] at hset; cases hset
  · rw [if_neg hr] at h
    injection h with h1
    injection h1 with hst he
    subst hst
    subst he
    exact ⟨rfl, Nat.le_refl _, Or.inl rfl, fun i => SugUpd.refl _⟩

/-! ### Invariants of the consensus table -/



theorem BKInv_nil (mr : Nat) : BKInv mr [] := ⟨List.nodup_nil, by simp⟩

/-- One pass of the consensus loop: the store evolves only by suggestion
write-backs, the key order is extended by at most one new key at the end,
and the table invariant is preserved. -/
theorem process_finding_step (mr : Nat) (cf : List String) (st : Store)
    (bk : ByKey) (r : Nat) (out : Store × ByKey)
    (h : process_finding mr cf (st, bk) r = .ok out) :
    (∀ i, SugUpd (readRef st i) (readRef out.1 i)) ∧
    (out.2.map Prod.fst = bk.map Prod.fst ∨
      ∃ k, out.2.map Prod.fst = bk.map Prod.fst ++ [k]) ∧
    (BKInv mr bk → BKInv mr out.2) := by
  unfold process_finding at h
  simp only [] at h
  cases hk : key_for (readRef st r) with
  | error e => rw [hk] at h; cases h
  | ok key0 =>
      obtain ⟨file, line, msg⟩ := key0
      rw [hk] at h
      simp only [] at h
      by_cases h1 : file = "" ∨ line ≤ 0 ∨ msg = ""
      · rw [if_pos h1] at h
        injection h with h1'
        subst h1'
        exact ⟨fun i => SugUpd.refl _, Or.inl rfl, id⟩
      · rw [if_neg h1] at h
        by_cases h2 : cf ≠ [] ∧ file ∉ cf
        · rw [if_pos h2] at h
          injection h with h2'
          subst h2'
          exact ⟨fun i => SugUpd.refl _, Or.inl rfl, id⟩
        · rw [if_neg h2] at h
          cases hsev : dictGet (readRef st r) "severity" PyVal.none with
          | error e => rw [hsev] at h; cases h
          | ok sevV =>
              rw [hsev] at h
              simp only [] at h
              cases hlow : lowerOr sevV with
              | error e => rw [hlow] at h; cases h
              | ok severity =>
                  rw [hlow] at h
                  simp only [] at h
                  by_cases h3 : rank0 severity < mr
                  · rw [if_pos h3] at h
                    injection h with h3'
                    subst h3'
                    exact ⟨fun i => SugUpd.refl _, Or.inl rfl, id⟩
                  · rw [if_neg h3] at h
                    cases hsug : dictGet (readRef st r) "suggestion" PyVal.none with
                    | error e => rw [hsug] at h; cases h
                    | ok sugV =>
                        rw [hsug] at h
                        simp only [] at h
                        cases hstr : asStrOr sugV with
                        | error e => rw [hstr] at h; cases h
                        | ok sug0 =>
                            rw [hstr] at h
                            simp only [] at h
                            cases hfind : findEntry bk (file, line, msg) with
                            | some e0 =>
                                simp only [setdefaultEntry, hfind] at h
                                have hmem0 : ((file, line, msg), e0) ∈ bk :=
                                  findEntry_mem bk _ e0 hfind
                                cases hcu : consensus_update st r severity
                                    (if (pyStrip sug0) = "" then placeholder_text else sug0) e0 with
                                | error err => rw [hcu] at h; cases h
                                | ok p2 =>
                                    obtain ⟨st2, e2⟩ := p2
                                    rw [hcu] at h
                                    simp only [] at h
                                    obtain ⟨hprov, hrank, _, hsugupd⟩ :=
                                      consensus_update_ok st r severity _ e0 st2 e2 hcu
                                    cases hpv : dictGet (readRef st2 r) "provider" PyVal.none with
                                    | error err => rw [hpv] at h; cases h
                                    | ok pV =>
                                        rw [hpv] at h
                                        simp only [] at h
                                        by_cases htr : truthy pV
                                        · rw [if_pos htr] at h
                                          cases hadd : addProvider e2.providers pV with
                                          | error err => rw [hadd] at h; cases h
                                          | ok ps =>
                                              rw [hadd] at h
                                              simp only [] at h
                                              injection h with h'
                                              subst h'
                                              refine ⟨hsugupd, ?_, ?_⟩
                                              · rw [updateEntry_map_fst]
                                                exact Or.inl rfl
                                              · intro hinv
                                                obtain ⟨hnodup, hall⟩ := hinv
                                                refine ⟨by rwa [updateEntry_map_fst], ?_⟩
                                                intro kv hkv
                                                rcases updateEntry_mem _ _ _ _ hkv with hin | heq
                                                · exact hall kv hin
                                                · subst heq
                                                  have he0 := hall _ hmem0
                                                  refine ⟨?_, ?_⟩
                                                  · exact addProvider_pairwise _ pV ps
                                                      (hprov ▸ he0.1) hadd
                                                  · exact Nat.le_trans he0.2 hrank
                                        · rw [if_neg htr] at h
                                          injection h with h'
                                          subst h'
                                          refine ⟨hsugupd, ?_, ?_⟩
                                          · rw [updateEntry_map_fst]
                                            exact Or.inl rfl
                                          · intro hinv
                                            obtain ⟨hnodup, hall⟩ := hinv
                                            refine ⟨by rwa [updateEntry_map_fst], ?_⟩
                                            intro kv hkv
                                            rcases updateEntry_mem _ _ _ _ hkv with hin | heq
                                            · exact hall kv hin
                                            · subst heq
                                              have he0 := hall _ hmem0
                                              exact ⟨hprov ▸ he0.1, Nat.le_trans he0.2 hrank⟩
                            | none =>
                                simp only [setdefaultEntry, hfind] at h
                                have hnotin : (file, line, msg) ∉ bk.map Prod.fst :=
                                  (findEntry_eq_none_iff bk _).mp hfind
                                cases hcu : consensus_update st r severity
                                    (if (pyStrip sug0) = "" then placeholder_text else sug0)
                                    ⟨[], r, severity⟩ with
                                | error err => rw [hcu] at h; cases h
                                | ok p2 =>
                                    obtain ⟨st2, e2⟩ := p2
                                    rw [hcu] at h
                                    simp only [] at h
                                    obtain ⟨hprov, hrank, _, hsugupd⟩ :=
                                      consensus_update_ok st r severity _ _ st2 e2 hcu
                                    have hmr : mr ≤ rank0 severity := Nat.le_of_not_lt h3
                                    have hnew : EntryInv mr (⟨[], r, severity⟩ : Entry) :=
                                      ⟨List.Pairwise.nil, hmr⟩
                                    cases hpv : dictGet (readRef st2 r) "provider" PyVal.none with
                                    | error err => rw [hpv] at h; cases h
                                    | ok pV =>
                                        rw [hpv] at h
                                        simp only [] at h
                                        by_cases htr : truthy pV
                                        · rw [if_pos htr] at h
                                          cases hadd : addProvider e2.providers pV with
                                          | error err => rw [hadd] at h; cases h
                                          | ok ps =>
                                              rw [hadd] at h
                                              simp only [] at h
                                              injection h with h'
                                              subst h'
                                              refine ⟨hsugupd, ?_, ?_⟩
                                              · rw [updateEntry_map_fst]
                                                exact Or.inr ⟨(file, line, msg), by simp⟩
                                              · intro hinv
                                                obtain ⟨hnodup, hall⟩ := hinv
                                                constructor
                                                · rw [updateEntry_map_fst]
                                                  simp [List.nodup_append, hnodup, hnotin]
                                                · intro kv hkv
                                                  rcases updateEntry_mem _ _ _ _ hkv with hin | heq
                                                  · rcases List.mem_append.mp hin with hin2 | hin2
                                                    · exact hall kv hin2
                                                    · simp at hin2
                                                      subst hin2
                                                      exact hnew
                                                  · subst heq
                                                    refine ⟨?_, ?_⟩
                                                    · exact addProvider_pairwise _ pV ps
                                                        (hprov ▸ List.Pairwise.nil) hadd
                                                    · exact Nat.le_trans hmr hrank
                                        · rw [if_neg htr] at h
                                          injection h with h'
                                          subst h'
                                          refine ⟨hsugupd, ?_, ?_⟩
                                          · rw [updateEntry_map_fst]
                                            exact Or.inr ⟨(file, line, msg), by simp⟩
                                          · intro hinv
                                            obtain ⟨hnodup, hall⟩ := hinv
                                            constructor
                                            · rw [updateEntry_map_fst]
                                              simp [List.nodup_append, hnodup, hnotin]
                                            · intro kv hkv
                                              rcases updateEntry_mem _ _ _ _ hkv with hin | heq
                                              · rcases List.mem_append.mp hin with hin2 | hin2
                                                · exact hall kv hin2
                                                · simp at hin2
                                                  subst hin2
                                                  exact hnew
                                              · subst heq
                                                exact ⟨hprov ▸ List.Pairwise.nil,
                                                  Nat.le_trans hmr hrank⟩

/-- Folding the consensus loop preserves the table invariant and only
rewrites suggestions in the store. -/
theorem process_fold (mr : Nat) (cf : List String) (rs : List Nat)
    (acc out : Store × ByKey)
    (h : rs.foldlM (process_finding mr cf) acc = .ok out) :
    (∀ i, SugUpd (readRef acc.1 i) (readRef out.1 i)) ∧
    (BKInv mr acc.2 → BKInv mr out.2) := by
  induction rs generalizing acc with
  | nil =>
      simp only [List.foldlM_nil] at h
      have : acc = out := by
        injection h
      subst this
      exact ⟨fun i => SugUpd.refl _, id⟩
  | cons r rs ih =>
      rw [List.foldlM_cons] at h
      obtain ⟨b, hb, hrest⟩ := except_bind_ok _ _ _ h
      obtain ⟨hsug, _, hinv⟩ := process_finding_step mr cf acc.1 acc.2 r b hb
      obtain ⟨hsug2, hinv2⟩ := ih b hrest
      exact ⟨fun i => SugUpd.trans (hsug i) (hsug2 i), fun hi => hinv2 (hinv hi)⟩

/-- The provider-tagging pass only writes to the freshly allocated
structured records, never to indices below `n`. -/
theorem tag_fold (rs : List Nat) (st1 st2 : Store) (n : Nat)
    (hge : ∀ r ∈ rs, n ≤ r)
    (h : rs.foldlM tagProvider st1 = .ok st2) :
    ∀ i, i < n → readRef st2 i = readRef st1 i := by
  induction rs generalizing st1 with
  | nil =>
      simp only [List.foldlM_nil] at h
      have : st1 = st2 := by injection h
      subst this
      intro i _
      rfl
  | cons r rs ih =>
      rw [List.foldlM_cons] at h
      obtain ⟨b, hb, hrest⟩ := except_bind_ok _ _ _ h
      intro i hi
      have hstep : readRef b i = readRef st1 i := by
        unfold tagProvider at hb
        cases hg : dictGet (readRef st1 r) "provider" PyVal.none with
        | error e => rw [hg] at hb; cases hb
        | ok p =>
            rw [hg] at hb
            simp only [] at hb
            cases hs : dictSet (readRef st1 r) "provider" (pyOr p (.str "synthesis")) with
            | error e => rw [hs] at hb; cases hb
            | ok f2 =>
                rw [hs] at hb
                simp only [] at hb
                have : st1.set r f2 = b := by injection hb
                subst this
                rw [readRef_set]
                have hrn : n ≤ r := hge r (List.mem_cons_self r rs)
                have : ¬ (r = i ∧ r < st1.length) := by
                  rintro ⟨hri, _⟩
                  omega
                rw [if_neg this]
      rw [← hstep]
      exact ih b (fun x hx => hge x (List.mem_cons_of_mem r hx)) hrest i hi

/-- Inverting a successful reconciliation: the resulting table satisfies the
invariant for the effective severity floor, and pre-existing records have at
most had their suggestion overwritten. -/
theorem reconcile_ok (st : Store) (pf : List Nat) (sl : StructLine)
    (ms : String) (cf : List String) (out : Store × ByKey)
    (h : reconcile st pf sl ms cf = .ok out) :
    BKInv (min_rank_of ms) out.2 ∧
    ∀ i, i < st.length → SugUpd (readRef st i) (readRef out.1 i) := by
  unfold reconcile at h
  cases hit : pyIter (load_struct_findings sl) with
  | error e => rw [hit] at h; cases h
  | ok elems =>
      rw [hit] at h
      simp only [] at h
      cases htag : (List.map (fun i => i + st.length) (List.range elems.length)).foldlM
          tagProvider (st ++ elems) with
      | error e => rw [htag] at h; cases h
      | ok st2 =>
          rw [htag] at h
          simp only [] at h
          obtain ⟨hsug, hinv⟩ := process_fold (min_rank_of ms) cf _ (st2, []) out h
          refine ⟨hinv (BKInv_nil _), ?_⟩
          intro i hi
          have h1 : readRef st2 i = readRef (st ++ elems) i := by
            refine tag_fold _ _ _ st.length ?_ htag i hi
            intro x hx
            simp at hx
            obtain ⟨j, _, hj⟩ := hx
            omega
          have h2 : readRef (st ++ elems) i = readRef st i :=
            readRef_append_left st elems i hi
          have := hsug i
          simp only [] at this
          rw [h1, h2] at this
          exact this

/-- Inverting a successful full run. -/
theorem build_ok_inv (st : Store) (pf : List Nat) (sl : StructLine)
    (mc : Int) (ms : String) (ma : Int) (pv : List PyVal) (cf : List String)
    (cs : List InlineComment) (st' : Store)
    (h : build_inline_payload st pf sl mc ms ma pv cf = .ok (cs, st')) :
    ∃ bk comments, reconcile st pf sl ms cf = .ok (st', bk) ∧
      filterMapE (render_entry st' (max 1 ma)) bk = .ok comments ∧
      cs = pyTake comments mc := by
  unfold build_inline_payload at h
  cases hrec : reconcile st pf sl ms cf with
  | error e => rw [hrec] at h; cases h
  | ok p =>
      obtain ⟨st3, bk⟩ := p
      rw [hrec] at h
      simp only [] at h
      cases hfm : filterMapE (render_entry st3 (max 1 ma)) bk with
      | error e => rw [hfm] at h; cases h
      | ok comments =>
          rw [hfm] at h
          simp only [] at h
          have hp : (pyTake comments mc, st3) = (cs, st') := by injection h
          injection hp with hcs hst
          subst hst
          exact ⟨bk, comments, rfl, hfm, hcs.symm⟩

/-- Inverting a successful rendering that emitted a comment: the comment
carries the entry's file, line and the fixed side; the provider set met the
agreement floor; a blank stored suggestion renders the placeholder inside
the fenced block; and a non-empty recorded max severity is the label at the
head of the body. -/
theorem render_entry_some (st : Store) (m : Int) (kv : Key × Entry)
    (c : InlineComment) (h : render_entry st m kv = .ok (some c)) :
    c.path = kv.1.1 ∧ c.line = kv.1.2.1 ∧ c.side = "RIGHT" ∧
    m ≤ (kv.2.providers.length : Int) ∧
    (∀ sv s, dictGet (readRef st kv.2.finding) "suggestion" PyVal.none = .ok sv →
      asStrOr sv = .ok s → pyStrip s = "" →
      ∃ pre, c.body =
        pre ++ "\n" ++ "```suggestion" ++ "\n" ++ placeholder_text ++ "\n" ++ "```") ∧
    (kv.2.max_sev ≠ "" →
      ∃ rest, c.body = "**" ++ kv.2.max_sev ++ "**: " ++ rest) := by
  unfold render_entry at h
  simp only [] at h
  by_cases hm : ((kv.2.providers.length : Int) < m)
  · rw [if_pos hm] at h
    injection h with h1
    cases h1
  · rw [if_neg hm] at h
    have hmle : m ≤ (kv.2.providers.length : Int) := Int.not_lt.mp hm
    cases hsev : dictGet (readRef st kv.2.finding) "severity" PyVal.none with
    | error err => rw [hsev] at h; cases h
    | ok sevV =>
        rw [hsev] at h
        simp only [] at h
        cases htit : dictGet (readRef st kv.2.finding) "title" PyVal.none with
        | error err => rw [htit] at h; simp only [] at h; cases h
        | ok titleV =>
            rw [htit] at h
            cases hmsg : dictGet (readRef st kv.2.finding) "message" PyVal.none with
            | error err => rw [hmsg] at h; simp only [] at h; cases h
            | ok msgV =>
                rw [hmsg] at h
                simp only [] at h
                cases hsug : dictGet (readRef st kv.2.finding) "suggestion" PyVal.none with
                | error err => rw [hsug] at h; cases h
                | ok sugV =>
                    rw [hsug] at h
                    simp only [] at h
                    cases hstr : asStrOr sugV with
                    | error err => rw [hstr] at h; cases h
                    | ok sug0 =>
                        rw [hstr] at h
                        simp only [] at h
                        by_cases hd : (truthy (pyOr msgV (.str "")) = true ∧
                            ¬ pyEq (pyOr msgV (.str "")) (.str kv.1.2.2) = true)
                        · rw [if_pos hd] at h
                          cases hdet : pyOr msgV (.str "") with
                          | str d =>
                              rw [hdet] at h
                              simp only [pyJoin] at h
                              injection h with h1
                              injection h1 with h2
                              subst h2
                              refine ⟨rfl, rfl, rfl, hmle, ?_, ?_⟩
                              · intro sv s hsv hs htrim
                                injection hsv with hsv2
                                subst hsv2
                                rw [hstr] at hs
                                injection hs with hs2
                                subst hs2
                                refine ⟨("**" ++ pyToStr (if kv.2.max_sev ≠ ""
                                    then PyVal.str kv.2.max_sev
                                    else pyOr sevV (.str "issue")) ++ "**: ")
                                  ++ pyToStr (pyOr titleV (pyOr msgV (.str kv.1.2.2)))
                                  ++ "\n" ++ d, ?_⟩
                                simp only [if_pos htrim]
                                simp only [String.append_assoc]
                              · intro hms
                                refine ⟨pyToStr (pyOr titleV (pyOr msgV (.str kv.1.2.2)))
                                  ++ "\n" ++ d ++ "\n" ++ "```suggestion" ++ "\n"
                                  ++ (if (pyStrip sug0) = "" then placeholder_text else sug0)
                                  ++ "\n" ++ "```", ?_⟩
                                simp only [if_pos hms, pyToStr]
                                simp only [String.append_assoc]
                          | none => rw [hdet] at h; simp only [pyJoin] at h; cases h
                          | bool b => rw [hdet] at h; simp only [pyJoin] at h; cases h
                          | int n => rw [hdet] at h; simp only [pyJoin] at h; cases h
                          | list l => rw [hdet] at h; simp only [pyJoin] at h; cases h
                          | dict kvs => rw [hdet] at h; simp only [pyJoin] at h; cases h
                        · rw [if_neg hd] at h
                          simp only [pyJoin] at h
                          injection h with h1
                          injection h1 with h2
                          subst h2
                          refine ⟨rfl, rfl, rfl, hmle, ?_, ?_⟩
                          · intro sv s hsv hs htrim
                            injection hsv with hsv2
                            subst hsv2
                            rw [hstr] at hs
                            injection hs with hs2
                            subst hs2
                            refine ⟨("**" ++ pyToStr (if kv.2.max_sev ≠ ""
                                then PyVal.str kv.2.max_sev
                                else pyOr sevV (.str "issue")) ++ "**: ")
                              ++ pyToStr (pyOr titleV (pyOr msgV (.str kv.1.2.2))), ?_⟩
                            simp only [if_pos htrim]
                            simp only [String.append_assoc]
                          · intro hms
                            refine ⟨pyToStr (pyOr titleV (pyOr msgV (.str kv.1.2.2)))
                              ++ "\n" ++ "```suggestion" ++ "\n"
                              ++ (if (pyStrip sug0) = "" then placeholder_text else sug0)
                              ++ "\n" ++ "```", ?_⟩
                            simp only [if_pos hms, pyToStr]
                            simp only [String.append_assoc]

/-! ### Claims -/

/-- C1 counterexample.  The claim says a non-list `findings` value and
non-dict finding records are silently excluded and never raise.  In fact a
truthy non-list `findings` value makes the tagging loop iterate a
non-iterable (Python `TypeError`), and a non-dict record inside a findings
list hits `f.get` (Python `AttributeError`); both propagate out of
`build_inline_payload`. -/
theorem C1_counterexample :
    build_inline_payload [] [] (.parsed (.dict [("findings", .int 5)]))
        5 "minor" 1 [] [] = .error .typeError ∧
    build_inline_payload [] [] (.parsed (.dict [("findings", .list [.int 7])]))
        5 "minor" 1 [] [] = .error .attributeError :=
  ⟨rfl, rfl⟩

/-- C1 amended: malformed `struct_line` JSON, a non-dict parse result, and a
missing (or falsy) `findings` value are treated exactly like an empty
structured block and never raise; the remaining provider findings still
produce output.  (A truthy non-list `findings` value or a malformed
individual record does raise, per `C1_counterexample`.) -/
theorem C1_amended :
    (∀ st pf sl mc ms ma pv cf, load_struct_findings sl = PyVal.list [] →
      build_inline_payload st pf sl mc ms ma pv cf
        = build_inline_payload st pf .empty mc ms ma pv cf) ∧
    load_struct_findings .malformed = PyVal.list [] ∧
    (∀ n, load_struct_findings (.parsed (.int n)) = PyVal.list []) ∧
    (∀ kvs, assocGet kvs "findings" = Option.none →
      load_struct_findings (.parsed (.dict kvs)) = PyVal.list []) := by
  refine ⟨?_, rfl, fun n => rfl, ?_⟩
  · intro st pf sl mc ms ma pv cf h
    unfold build_inline_payload reconcile
    rw [h]
    simp [load_struct_findings, pyIter]
  · intro kvs h
    simp [load_struct_findings, h, pyOr, truthy]

/-- Witness for `C1_amended` at a non-dict parse result. -/
theorem C1_amended_witness :
    build_inline_payload [] [] (.parsed (.str "oops")) 5 "minor" 1 [] []
      = build_inline_payload [] [] .empty 5 "minor" 1 [] [] :=
  C1_amended.1 [] [] (.parsed (.str "oops")) 5 "minor" 1 [] [] rfl

/-- C4: the representative finding of a consensus entry is replaced exactly
when the incoming finding ranks strictly higher than the entry's recorded
max severity; at equal or lower rank the entry and the store are returned
untouched (first seen at the highest severity wins, not last seen). -/
theorem C4_representative_replacement (st : Store) (r : Nat)
    (sev sug : String) (e : Entry) :
    (rank0 sev ≤ rank0 e.max_sev → consensus_update st r sev sug e = .ok (st, e)) ∧
    (∀ st2 e2, consensus_update st r sev sug e = .ok (st2, e2) →
      rank0 e.max_sev < rank0 sev →
      e2.finding = r ∧ e2.max_sev = sev ∧ e2.providers = e.providers) := by
  constructor
  · intro hle
    unfold consensus_update
    rw [if_neg (by omega)]
  · intro st2 e2 h hgt
    unfold consensus_update at h
    rw [if_pos (show rank0 sev > rank0 e.max_sev from hgt)] at h
    cases hset : dictSet (readRef st r) "suggestion" (.str sug) with
    | error err => rw [hset] at h; cases h
    | ok f2 =>
        rw [hset] at h
        simp only [] at h
        have hp : (st.set r f2, { e with max_sev := sev, finding := r }) = (st2, e2) := by
          injection h
        injection hp with h1 h2
        subst h2
        exact ⟨rfl, rfl, rfl⟩

/-- Witness for `C4_representative_replacement`: an equal-or-lower-ranked
finding leaves the entry untouched. -/
theorem C4_witness :
    consensus_update [] 0 "minor" "s" ⟨[], 0, "major"⟩ = .ok ([], ⟨[], 0, "major"⟩) :=
  (C4_representative_replacement [] 0 "minor" "s" ⟨[], 0, "major"⟩).1 (by decide)

/-- C5: the output never exceeds the (positive) comment cap. -/
theorem C5_cap (st : Store) (pf : List Nat) (sl : StructLine) (mc : Int)
    (ms : String) (ma : Int) (pv : List PyVal) (cf : List String)
    (cs : List InlineComment) (st' : Store)
    (hmc : 1 ≤ mc)
    (h : build_inline_payload st pf sl mc ms ma pv cf = .ok (cs, st')) :
    (cs.length : Int) ≤ mc := by
  obtain ⟨bk, comments, _, _, hcs⟩ := build_ok_inv st pf sl mc ms ma pv cf cs st' h
  subst hcs
  exact pyTake_length_le comments mc (by omega)

/-- Witness for `C5_cap`. -/
theorem C5_cap_witness : (([] : List InlineComment).length : Int) ≤ 5 :=
  C5_cap [] [] .empty 5 "minor" 2 [] [] [] [] (by norm_num) rfl



/-- C7 counterexample.  The claim says a whitespace-only title falls back to
the message and the finding is kept.  In fact `title or message` tests
truthiness, so the whitespace-only title is selected, strips to an empty
normalized message, and the finding is dropped: the run emits nothing even
at `min_agree = 1`. -/
theorem C7_counterexample :
    pyStrip " " = "" ∧ pyStrip "Bug" = "Bug" ∧
    key_for c7_record = .ok ("a.py", 1, "") ∧
    build_inline_payload [c7_record] [0] .empty 5 "minor" 1 [] []
      = .ok ([], [c7_record]) :=
  ⟨rfl, rfl, rfl, rfl⟩

/-- C7 amended: the normalized message is the trimmed, lower-cased title
whenever the title is a non-empty string — whitespace-only included — and
falls back to the message only when the title is the empty string; a finding
whose computed key has empty file, line ≤ 0 or empty normalized message is
dropped at the key step with no other effect. -/
theorem C7_amended :
    (∀ fl ti ms : String, ∀ ln : Int,
      key_for (.dict [("file", .str fl), ("line", .int ln),
          ("title", .str ti), ("message", .str ms)])
        = .ok (pyStrip fl, ln, pyLower (pyStrip (if ti = "" then ms else ti)))) ∧
    (∀ (mr : Nat) (cf : List String) (st : Store) (bk : ByKey) (r : Nat)
        (file : String) (line : Int) (msg : String),
      key_for (readRef st r) = .ok (file, line, msg) →
      (file = "" ∨ line ≤ 0 ∨ msg = "") →
      process_finding mr cf (st, bk) r = .ok (st, bk)) := by
  constructor
  · intro fl ti ms ln
    by_cases hti : ti = "" <;> by_cases hfl : fl = "" <;> by_cases hms : ms = "" <;>
      simp [key_for, dictGet, assocGet, stripOr, pyOr, truthy, pyInt, hti, hfl, hms]
  · intro mr cf st bk r file line msg hk hdrop
    unfold process_finding
    simp only []
    rw [hk]
    simp only []
    rw [if_pos hdrop]

/-- Witness for `C7_amended`: the refuting record is dropped at the key
step. -/
theorem C7_amended_witness :
    process_finding (min_rank_of "minor") [] ([c7_record], []) 0
      = .ok ([c7_record], []) :=
  C7_amended.2 (min_rank_of "minor") [] [c7_record] [] 0 "a.py" 1 "" rfl
    (Or.inr (Or.inr rfl))

/-- C8: an emitted comment whose representative finding stores a blank
suggestion renders exactly the fixed placeholder text inside the fenced
suggestion block. -/
theorem C8_placeholder (st : Store) (m : Int) (kv : Key × Entry)
    (c : InlineComment) (sv : PyVal) (s : String)
    (hsv : dictGet (readRef st kv.2.finding) "suggestion" PyVal.none = .ok sv)
    (hs : asStrOr sv = .ok s) (htrim : pyStrip s = "")
    (h : render_entry st m kv = .ok (some c)) :
    ∃ pre, c.body =
      pre ++ "\n" ++ "```suggestion" ++ "\n" ++ placeholder_text ++ "\n" ++ "```" := by
  obtain ⟨_, _, _, _, hsug, _⟩ := render_entry_some st m kv c h
  exact hsug sv s hsv hs htrim

/-- Witness for `C8_placeholder` on a concrete blank-suggestion entry. -/
theorem C8_placeholder_witness :
    ∃ pre, (InlineComment.body ⟨"b.py", 5, "RIGHT",
        "**major**: Missing\nmsg\n```suggestion\nNo specific suggestion provided; please adjust accordingly.\n```"⟩) =
      pre ++ "\n" ++ "```suggestion" ++ "\n" ++ placeholder_text ++ "\n" ++ "```" :=
  C8_placeholder [mkFinding "b.py" 5 "major" "Missing" "msg" "" "p1"] 1
    (("b.py", 5, "missing"), ⟨[.str "p1"], 0, "major"⟩)
    ⟨"b.py", 5, "RIGHT",
      "**major**: Missing\nmsg\n```suggestion\nNo specific suggestion provided; please adjust accordingly.\n```"⟩
    (.str "") "" rfl rfl rfl rfl

/-- Ranks produced by the severity table are positive exactly for the three
known labels. -/
theorem rank0_pos (s : String) (h : 1 ≤ rank0 s) :
    s = "critical" ∨ s = "major" ∨ s = "minor" := by
  by_cases h1 : s = "critical"
  · exact Or.inl h1
  · by_cases h2 : s = "major"
    · exact Or.inr (Or.inl h2)
    · by_cases h3 : s = "minor"
      · exact Or.inr (Or.inr h3)
      · simp [rank0, severity_order, h1, h2, h3] at h

/-- C2: every emitted comment's underlying consensus entry is backed by at
least `max 1 min_agree` providers, counted with set semantics: the entry's
provider list is pairwise distinct under Python equality, and adding an
already-present provider value never grows it. -/
theorem C2_agreement_floor (st : Store) (pf : List Nat) (sl : StructLine)
    (mc : Int) (ms : String) (ma : Int) (pv : List PyVal) (cf : List String)
    (cs : List InlineComment) (st' : Store)
    (h : build_inline_payload st pf sl mc ms ma pv cf = .ok (cs, st')) :
    (∀ c ∈ cs, ∃ bk kv, reconcile st pf sl ms cf = .ok (st', bk) ∧ kv ∈ bk ∧
      render_entry st' (max 1 ma) kv = .ok (some c) ∧
      max 1 ma ≤ (kv.2.providers.length : Int) ∧
      kv.2.providers.Pairwise (fun a b => pyEq a b = false)) ∧
    (∀ (ps : List PyVal) (v : PyVal), (∃ a ∈ ps, pyEq a v = true) →
      addProvider ps v = .ok ps) := by
  constructor
  · intro c hc
    obtain ⟨bk, comments, hrec, hfm, hcs⟩ := build_ok_inv st pf sl mc ms ma pv cf cs st' h
    obtain ⟨n, hn⟩ := pyTake_eq_take comments mc
    rw [hn] at hcs
    subst hcs
    have hc2 : c ∈ comments := List.mem_of_mem_take hc
    obtain ⟨kv, hkv, hrender⟩ := filterMapE_mem _ bk comments hfm c hc2
    obtain ⟨hbkinv, _⟩ := reconcile_ok st pf sl ms cf (st', bk) hrec
    obtain ⟨_, _, _, hlen, _, _⟩ := render_entry_some st' (max 1 ma) kv c hrender
    exact ⟨bk, kv, hrec, hkv, hrender, hlen, (hbkinv.2 kv hkv).1⟩
  · rintro ps v ⟨a, ha, hav⟩
    have hany : ps.any (fun x => pyEq x v) = true := List.any_eq_true.mpr ⟨a, ha, hav⟩
    unfold addProvider
    cases v with
    | list l => cases a <;> simp [pyEq] at hav
    | dict d => cases a <;> simp [pyEq] at hav
    | none => simp [hany]
    | bool b => simp [hany]
    | int n => simp [hany]
    | str s3 => simp [hany]



/-- Witness for `C2_agreement_floor` on the two-provider run. -/
theorem C2_agreement_floor_witness :
    ∃ bk kv, reconcile exSt [0, 1] .empty "minor" ["a.py"] = .ok (exSt, bk) ∧
      kv ∈ bk ∧
      render_entry exSt (max 1 2) kv = .ok (some exComment) ∧
      max 1 (2 : Int) ≤ (kv.2.providers.length : Int) ∧
      kv.2.providers.Pairwise (fun a b => pyEq a b = false) :=
  (C2_agreement_floor exSt [0, 1] .empty 5 "minor" 2 [] ["a.py"]
      [exComment] exSt rfl).1 exComment (List.mem_singleton_self _)

/-- C3: emitted comments are in one-to-one correspondence with distinct
dedup keys: the pairing maps each comment to the `(path, line,
normalized_message)` key of its entry, no key appears twice, and each
comment's path and line are exactly its key's file and line. -/
theorem C3_dedup (st : Store) (pf : List Nat) (sl : StructLine)
    (mc : Int) (ms : String) (ma : Int) (pv : List PyVal) (cf : List String)
    (cs : List InlineComment) (st' : Store)
    (h : build_inline_payload st pf sl mc ms ma pv cf = .ok (cs, st')) :
    ∃ pairs : List ((Key × Entry) × InlineComment),
      cs = pairs.map Prod.snd ∧
      (pairs.map (fun p => p.1.1)).Nodup ∧
      ∀ p ∈ pairs, p.2.path = p.1.1.1 ∧ p.2.line = p.1.1.2.1 := by
  obtain ⟨bk, comments, hrec, hfm, hcs⟩ := build_ok_inv st pf sl mc ms ma pv cf cs st' h
  obtain ⟨pairs0, hmap, hsub, hall⟩ := filterMapE_pairs _ bk comments hfm
  obtain ⟨hbkinv, _⟩ := reconcile_ok st pf sl ms cf (st', bk) hrec
  obtain ⟨n, hn⟩ := pyTake_eq_take comments mc
  rw [hn] at hcs
  subst hcs
  refine ⟨pairs0.take n, ?_, ?_, ?_⟩
  · rw [hmap, List.map_take]
  · have h1 : (pairs0.map (fun p => p.1.1)).Nodup := by
      have hkeys : pairs0.map (fun p => p.1.1)
          = (pairs0.map Prod.fst).map Prod.fst := by
        simp
      rw [hkeys]
      exact List.Nodup.sublist (List.Sublist.map Prod.fst hsub) hbkinv.1
    have h2 : List.Sublist ((pairs0.take n).map (fun p => p.1.1))
        (pairs0.map (fun p => p.1.1)) :=
      List.Sublist.map _ (List.take_sublist n pairs0)
    exact List.Nodup.sublist h2 h1
  · intro p hp
    have hp0 : p ∈ pairs0 := List.mem_of_mem_take hp
    obtain ⟨hpath, hline, _, _, _, _⟩ :=
      render_entry_some st' (max 1 ma) p.1 p.2 (hall p hp0)
    exact ⟨hpath, hline⟩

/-- Witness for `C3_dedup` on the two-provider run. -/
theorem C3_dedup_witness :
    ∃ pairs : List ((Key × Entry) × InlineComment),
      [exComment] = pairs.map Prod.snd ∧
      (pairs.map (fun p => p.1.1)).Nodup ∧
      ∀ p ∈ pairs, p.2.path = p.1.1.1 ∧ p.2.line = p.1.1.2.1 :=
  C3_dedup exSt [0, 1] .empty 5 "minor" 2 [] ["a.py"] [exComment] exSt rfl

/-- C10: the effective severity floor is at least 1 for every `min_sev`
string (an unrecognized value behaves exactly like `"minor"`); a finding
whose severity ranks 0 never creates or joins a consensus entry; and every
emitted comment's body is labelled with one of the three known severities —
never empty and never the `"issue"` fallback. -/
theorem C10_severity_floor :
    (∀ s, 1 ≤ min_rank_of s) ∧
    (∀ s, severity_order (pyLower s) = Option.none →
      min_rank_of s = min_rank_of "minor") ∧
    (∀ (ms : String) (cf : List String) (st : Store) (bk : ByKey) (r : Nat)
        (k : Key) (sv : PyVal) (sev : String),
      key_for (readRef st r) = .ok k →
      dictGet (readRef st r) "severity" PyVal.none = .ok sv →
      lowerOr sv = .ok sev → rank0 sev = 0 →
      process_finding (min_rank_of ms) cf (st, bk) r = .ok (st, bk)) ∧
    (∀ (st : Store) (pf : List Nat) (sl : StructLine) (mc : Int) (ms : String)
        (ma : Int) (pv : List PyVal) (cf : List String)
        (cs : List InlineComment) (st' : Store),
      build_inline_payload st pf sl mc ms ma pv cf = .ok (cs, st') →
      ∀ c ∈ cs, ∃ sev rest, (sev = "critical" ∨ sev = "major" ∨ sev = "minor") ∧
        c.body = "**" ++ sev ++ "**: " ++ rest) := by
  have hfloor : ∀ s, 1 ≤ min_rank_of s := by
    intro s
    unfold min_rank_of
    by_cases h1 : pyLower s = "critical"
    · simp [severity_order, h1]
    · by_cases h2 : pyLower s = "major"
      · simp [severity_order, h1, h2]
      · by_cases h3 : pyLower s = "minor"
        · simp [severity_order, h1, h2, h3]
        · simp [severity_order, h1, h2, h3]
  refine ⟨hfloor, ?_, ?_, ?_⟩
  · intro s h
    unfold min_rank_of
    rw [h]
    rfl
  · intro ms cf st bk r k sv sev hk hsv hlow hrank
    obtain ⟨file, line, msg⟩ := k
    unfold process_finding
    simp only []
    rw [hk]
    simp only []
    by_cases h1 : file = "" ∨ line ≤ 0 ∨ msg = ""
    · rw [if_pos h1]
    · rw [if_neg h1]
      by_cases h2 : cf ≠ [] ∧ file ∉ cf
      · rw [if_pos h2]
      · rw [if_neg h2]
        rw [hsv]
        simp only []
        rw [hlow]
        simp only []
        rw [if_pos (by have := hfloor ms; omega)]
  · intro st pf sl mc ms ma pv cf cs st' h c hc
    obtain ⟨bk, comments, hrec, hfm, hcs⟩ := build_ok_inv st pf sl mc ms ma pv cf cs st' h
    obtain ⟨n, hn⟩ := pyTake_eq_take comments mc
    rw [hn] at hcs
    subst hcs
    obtain ⟨kv, hkv, hrender⟩ :=
      filterMapE_mem _ bk comments hfm c (List.mem_of_mem_take hc)
    obtain ⟨hbkinv, _⟩ := reconcile_ok st pf sl ms cf (st', bk) hrec
    have hrank : 1 ≤ rank0 kv.2.max_sev :=
      Nat.le_trans (hfloor ms) (hbkinv.2 kv hkv).2
    have hcases := rank0_pos kv.2.max_sev hrank
    have hnonempty : kv.2.max_sev ≠ "" := by
      rcases hcases with h1 | h1 | h1 <;> rw [h1] <;> simp
    obtain ⟨_, _, _, _, _, hbody⟩ := render_entry_some st' (max 1 ma) kv c hrender
    obtain ⟨rest, hrest⟩ := hbody hnonempty
    exact ⟨kv.2.max_sev, rest, hcases, hrest⟩


/-- Witness for `C10_severity_floor`: an unranked-severity finding is
dropped even at the lowest floor. -/
theorem C10_severity_floor_witness :
    process_finding (min_rank_of "minor") [] ([c10_record], []) 0
      = .ok ([c10_record], []) :=
  C10_severity_floor.2.2.1 "minor" [] [c10_record] [] 0 ("a.py", 1, "t")
    (.str "weird") "weird" rfl rfl rfl rfl

/-- C6: emitted comments follow the first-insertion order of their dedup
keys.  The consensus loop only ever appends a (single, new) key at the end
of the table, keeping earlier keys in place; the comment list is the
renderings of an order-preserving selection of table entries; and the cap
keeps a `take`-style leading segment of that list, so earlier-reported
issues win when the cap is hit and no severity re-sorting occurs. -/
theorem C6_order :
    (∀ (mr : Nat) (cf : List String) (st : Store) (bk : ByKey) (r : Nat)
        (out : Store × ByKey),
      process_finding mr cf (st, bk) r = .ok out →
      out.2.map Prod.fst = bk.map Prod.fst ∨
        ∃ k, out.2.map Prod.fst = bk.map Prod.fst ++ [k]) ∧
    (∀ (st : Store) (pf : List Nat) (sl : StructLine) (mc : Int) (ms : String)
        (ma : Int) (pv : List PyVal) (cf : List String)
        (cs : List InlineComment) (st' : Store),
      build_inline_payload st pf sl mc ms ma pv cf = .ok (cs, st') →
      ∃ (bk : ByKey) (full : List InlineComment)
          (pairs : List ((Key × Entry) × InlineComment)) (n : Nat),
        reconcile st pf sl ms cf = .ok (st', bk) ∧
        filterMapE (render_entry st' (max 1 ma)) bk = .ok full ∧
        full = pairs.map Prod.snd ∧
        List.Sublist (pairs.map Prod.fst) bk ∧
        cs = full.take n) := by
  constructor
  · intro mr cf st bk r out h
    exact (process_finding_step mr cf st bk r out h).2.1
  · intro st pf sl mc ms ma pv cf cs st' h
    obtain ⟨bk, comments, hrec, hfm, hcs⟩ := build_ok_inv st pf sl mc ms ma pv cf cs st' h
    obtain ⟨pairs0, hmap, hsub, _⟩ := filterMapE_pairs _ bk comments hfm
    obtain ⟨n, hn⟩ := pyTake_eq_take comments mc
    rw [hn] at hcs
    exact ⟨bk, comments, pairs0, n, hrec, hfm, hmap, hsub, hcs⟩

/-- Witness for `C6_order`: processing a fresh finding appends its key. -/
theorem C6_order_witness :
    ([(("a.py", (10 : Int), "bug a"),
        (⟨[.str "p1"], 0, "major"⟩ : Entry))] : ByKey).map Prod.fst
      = ([] : ByKey).map Prod.fst ∨
    ∃ k, ([(("a.py", (10 : Int), "bug a"),
        (⟨[.str "p1"], 0, "major"⟩ : Entry))] : ByKey).map Prod.fst
      = ([] : ByKey).map Prod.fst ++ [k] :=
  C6_order.1 (min_rank_of "minor") [] [mkFinding "a.py" 10 "major" "Bug A" "msg" "fix" "p1"]
    [] 0
    ([mkFinding "a.py" 10 "major" "Bug A" "msg" "fix" "p1"],
      [(("a.py", (10 : Int), "bug a"), (⟨[.str "p1"], 0, "major"⟩ : Entry))]) rfl




/-- C9 counterexample.  The claim says no record of `provider_findings` is
mutated, including its suggestion field.  In fact, when the second record
replaces the entry representative at strictly higher severity, line 55
writes the normalized suggestion back into that input record: its
`suggestion` field goes from `""` to the placeholder text in place. -/
theorem C9_counterexample :
    suggestionOf c9_f2 = some (.str "") ∧
    (outRecord (build_inline_payload [c9_f1, c9_f2] [0, 1] .empty 5 "minor" 1 [] []) 1).map
        suggestionOf
      = some (some (.str placeholder_text)) :=
  ⟨rfl, rfl⟩

/-- C9 amended: a full run can change the records reachable from
`provider_findings` in exactly one way — overwriting the `suggestion` key of
a record that replaced a consensus entry's representative at strictly higher
severity; every other field and every other record is left unchanged. -/
theorem C9_amended (st : Store) (pf : List Nat) (sl : StructLine)
    (mc : Int) (ms : String) (ma : Int) (pv : List PyVal) (cf : List String)
    (cs : List InlineComment) (st' : Store)
    (h : build_inline_payload st pf sl mc ms ma pv cf = .ok (cs, st')) :
    ∀ i, i < st.length → SugUpd (readRef st i) (readRef st' i) := by
  obtain ⟨bk, comments, hrec, _, _⟩ := build_ok_inv st pf sl mc ms ma pv cf cs st' h
  exact (reconcile_ok st pf sl ms cf (st', bk) hrec).2

/-- Witness for `C9_amended` on a run with no findings processed. -/
theorem C9_amended_witness : SugUpd (readRef [c9_f1] 0) (readRef [c9_f1] 0) :=
  C9_amended [c9_f1] [] .empty 5 "minor" 1 [] [] [] [c9_f1] rfl 0 (by decide)
